import Mathlib

/-!
Verification of the alpha-beta search core of the Marvin chess engine
(`src/search.c`) against its natural-language specification.

The search subsystem is shallowly embedded: the worker-local state that
`search`/`quiescence` mutate (position, PV table, killer table, history
table, node counters) is threaded explicitly, external collaborators that
the specification declares out of scope (board representation, move
generation, make/unmake, static evaluation, SEE, the transposition table
and the tablebase probe) are abstracted as an `Env` record of functions,
and every side effect relevant to the claims (evaluation, TT probe/store,
making a real or a null move) is recorded in an event trace so that
ordering and "never happens" statements can be expressed.
-/

namespace Marvin

/-! ## Scoring constants.

Modelled from the spec: `INFINITE` = 30000, `CHECKMATE` = 29000,
`FORCED_MATE` = `CHECKMATE - MAX_PLY`; the numeric values of `MAX_PLY`,
`KNOWN_WIN` and `MAX_HISTORY_SCORE` are not given in the spec (they live
in headers outside `src/`), so representative concrete values are fixed;
no claim depends on the particular numbers. -/

def MAX_PLY : Nat := 128

def INFINITE_SCORE : Int := 30000

def CHECKMATE : Int := 29000

def FORCED_MATE : Int := CHECKMATE - MAX_PLY

def KNOWN_WIN : Int := 20000

def MAX_HISTORY_SCORE : Int := 8000

/-! ## Pruning margins, from the arrays at the top of `search.c`. -/

/-- `futility_margin[] = {0, 300, 500, 900}`, indexed by depth. -/
def futility_margin (d : Int) : Int :=
  if d = 1 then 300 else if d = 2 then 500 else if d = 3 then 900 else 0

/-- `razoring_margin[] = {0, 100, 200, 400}`, indexed by depth. -/
def razoring_margin (d : Int) : Int :=
  if d = 1 then 100 else if d = 2 then 200 else if d = 3 then 400 else 0

/-- `lmp_counts[] = {0, 5, 10, 20, 35, 55}`, indexed by depth. -/
def lmp_counts (d : Int) : Int :=
  if d = 1 then 5 else if d = 2 then 10 else if d = 3 then 20
  else if d = 4 then 35 else if d = 5 then 55 else 0

/-- `see_prune_margin[] = {0, -100, -200, -300, -400}`, indexed by depth. -/
def see_prune_margin (d : Int) : Int :=
  if d = 1 then -100 else if d = 2 then -200 else if d = 3 then -300
  else if d = 4 then -400 else 0

/-- `aspiration_window[] = {25, 50, 100, 200, 400, INFINITE_SCORE}`.
Indices beyond the last entry (out of bounds in the C array) are clipped
to `INFINITE_SCORE`. -/
def aspiration_window (i : Nat) : Int :=
  [(25 : Int), 50, 100, 200, 400, INFINITE_SCORE].getD i INFINITE_SCORE

/-! ## Moves and positions. -/

/-- A move, as the flags of the packed move integer that `search.c` reads
through the `FROM`/`TO`/`ISCAPTURE`/`ISENPASSANT`/`ISPROMOTION` macros.
`tag` stands for the remaining encoded bits (promotion piece, castle
flag), so that distinct encodings stay distinct under equality. -/
structure Move where
  fromSq : Nat
  toSq : Nat
  capture : Bool
  ep : Bool
  promo : Bool
  tag : Nat
deriving DecidableEq, Repr

/-- The distinguished `NOMOVE` value. -/
def NOMOVE : Move := ⟨0, 0, false, false, false, 0⟩

/-- The slice of `struct position` that the code in `search.c` reads
directly: the side to move `stm`, the fifty-move counter `fifty` and the
search ply `sply`. `board` abstracts the rest of the board state seen
only by the external board functions. -/
structure Pos where
  board : Nat
  stm : Nat
  fifty : Nat
  sply : Nat
deriving DecidableEq, Repr

/-- `is_tactical_move`: capture, en passant or promotion. -/
def is_tactical_move (move : Move) : Bool :=
  move.capture || move.ep || move.promo

/-! ## Worker-local state. -/

/-- Worker state touched by `search.c`: position, PV table (one principal
variation per ply, as a list of moves), killer table (`[MAX_PLY][2]`),
history table (`[2][64][64]`), node counter and selective depth. -/
structure Worker where
  pos : Pos
  pvTable : Nat → List Move
  killerTable : Nat → Move × Move
  historyTable : Nat → Nat → Nat → Int
  nodes : Nat
  seldepth : Nat

/-! ## The external environment.

Modelled from the spec: board representation, move generation,
make/unmake, static evaluation, SEE, the transposition table and the
tablebase probe are external collaborators ("bit-exact move laws assumed
given", evaluation "a black-box returning a centipawn score", lookup per
section 4.1).  Each is an unconstrained function of the position, so any
theorem quantified over `Env` holds for every behaviour of the real
collaborators.  The move selector is abstracted as the list of moves it
emits for a node, determined by the position and the TT move; its
internal phase ordering (which may consult the worker tables) is folded
into the choice of list, which is sound for the claims below since none
depends on the emission order. -/
structure Env where
  /-- `board_in_check(pos, pos->stm)`. -/
  inCheck : Pos → Bool
  /-- `board_is_repetition`. -/
  isRep : Pos → Bool
  /-- `eval_evaluate`. -/
  evalScore : Pos → Int
  /-- `board_has_non_pawn(pos, pos->stm)`. -/
  hasNonPawn : Pos → Bool
  /-- `board_make_move`: `none` when the pseudo-legal move is illegal
  (the C function returns `false` and undoes). The search-ply increment
  performed by the real make is added by `doMove` below. -/
  makeMove : Pos → Move → Option Pos
  /-- `board_make_null_move`: switch sides without moving a piece. -/
  makeNull : Pos → Pos
  /-- `hash_tt_lookup(pos, depth, alpha, beta)` as
  `(hit, stored move, score)`; on a miss the stored move (or `NOMOVE`)
  is still returned for ordering (spec section 4.1). -/
  ttLookup : Pos → Int → Int → Int → Bool × Move × Int
  /-- The tablebase probe of `search` (the `probe_wdl` flag, the piece
  count gate and `probe_wdl_tables` folded together): `some score` when
  the probe succeeds and `search` returns it. -/
  tbProbe : Pos → Option Int
  /-- `see_ge(pos, move, threshold)`. -/
  seeGE : Pos → Move → Int → Bool
  /-- `see_post_ge(pos, move, threshold)`, evaluated after the move has
  been made. -/
  seePostGE : Pos → Move → Int → Bool
  /-- `is_pawn_push`: pawn move to rank 6 or higher (white) or rank 3 or
  lower (black); reads the board, hence external here. -/
  isPawnPush : Pos → Move → Bool
  /-- The main-search move selector: the moves emitted by successive
  `select_get_move` calls for a node, given the TT move. -/
  moves : Pos → Move → List Move
  /-- The quiescence move selector (`select_get_quiscence_move`), with a
  flag marking moves emitted in `PHASE_BAD_CAPS`. -/
  qmoves : Pos → Move → List (Move × Bool)

/-- `board_make_move` including the search-ply increment that the real
make performs on success. -/
def doMove (env : Env) (pos : Pos) (move : Move) : Option Pos :=
  (env.makeMove pos move).map (fun q => { q with sply := pos.sply + 1 })

/-- `board_make_null_move` including the search-ply increment. -/
def doNull (env : Env) (pos : Pos) : Pos :=
  { env.makeNull pos with sply := pos.sply + 1 }

/-! ## The small table-updating helpers of `search.c`. -/

/-- `update_pv` (search.c:192-203): prepend the move at the current ply
to the PV of the next ply. -/
def update_pv (w : Worker) (move : Move) : Worker :=
  { w with pvTable := fun t =>
      if t = w.pos.sply then move :: w.pvTable (w.pos.sply + 1)
      else w.pvTable t }

/-- `update_history_table` (search.c:83-109): captures and en passants
are ignored; otherwise `depth` is added to the cell for (side to move,
from, to) and, if that cell now exceeds `MAX_HISTORY_SCORE`, every cell
of the table is halved. -/
def update_history_table (w : Worker) (move : Move) (depth : Int) : Worker :=
  if move.capture = true ∨ move.ep = true then w
  else
    let t1 : Nat → Nat → Nat → Int := fun s f t =>
      if s = w.pos.stm ∧ f = move.fromSq ∧ t = move.toSq then
        w.historyTable s f t + depth
      else w.historyTable s f t
    if MAX_HISTORY_SCORE < t1 w.pos.stm move.fromSq move.toSq then
      { w with historyTable := fun s f t => t1 s f t / 2 }
    else
      { w with historyTable := t1 }

/-- `add_killer_move` (search.c:111-125): ignore winning or equal
captures (SEE >= 0) and the move already in slot 0; otherwise shift
slot 0 to slot 1 and store the move in slot 0. -/
def add_killer_move (env : Env) (w : Worker) (move : Move) : Worker :=
  if (move.capture = true ∨ move.ep = true) ∧ env.seeGE w.pos move 0 = true then w
  else if move = (w.killerTable w.pos.sply).1 then w
  else
    { w with killerTable := fun p =>
        if p = w.pos.sply then (move, (w.killerTable w.pos.sply).1)
        else w.killerTable p }

/-- `is_killer_move`: the move matches one of the two killers at the
current ply. -/
def is_killer_move (w : Worker) (move : Move) : Bool :=
  decide ((w.killerTable w.pos.sply).1 = move) ||
    decide ((w.killerTable w.pos.sply).2 = move)

/-! ## Event traces.

Each node records the externally observable actions it performs, in
program order; the subtree searched behind a (null) move is nested
inside its event, so a trace is a finitely branching tree of events. -/

/-- TT bound kinds (`TT_ALPHA` = upper bound, `TT_BETA` = lower bound,
`TT_EXACT`). -/
inductive TTFlag where
  | alpha : TTFlag
  | beta : TTFlag
  | exact : TTFlag
deriving DecidableEq, Repr

/-- Observable search events: a static evaluation, a TT probe, a TT
store (with its arguments), a legal move made and searched (with the
subtree's trace) and a null move made and searched. -/
inductive Ev where
  | evalE : Ev
  | ttLookupE : Ev
  | ttStoreE : Move → Int → Int → TTFlag → Ev
  | moveE : Move → List Ev → Ev
  | nullE : List Ev → Ev

/-- Result of a search call: returned score, worker state after the
call (with the position restored) and the events performed. -/
structure SRes where
  score : Int
  w : Worker
  tr : List Ev

/-! ## Quiescence search (search.c:234-336).

The C function recurses after `board_make_move` has incremented the
search ply and returns without recursing once `pos->sply >= MAX_PLY`, so
its recursion depth is bounded; here the recursion is paid for with an
explicit fuel argument and the depth bound is recovered as a theorem
(claim C8): any fuel of at least `MAX_PLY + 1 - sply` computes the same
result. -/

/-- State of the quiescence move loop: running best score, the (possibly
raised) lower bound, whether a legal move was found, the worker and the
trace so far. -/
structure QSt where
  best : Int
  alpha : Int
  found : Bool
  w : Worker
  tr : List Ev

/-- The move loop of `quiescence` (search.c:299-329). `qr` performs the
recursive quiescence call; `ppos` is the node's position, restored after
each move. Bad captures (SEE < 0, `PHASE_BAD_CAPS`) are skipped when not
in check; a score at or above beta stops the loop. -/
def q_loop (env : Env) (qr : Worker → Int → Int → Int → SRes) (ppos : Pos)
    (depth beta : Int) (ic : Bool) :
    List (Move × Bool) → QSt → QSt
  | [], st => st
  | (m, badcap) :: rest, st =>
    if ic = false ∧ m.capture = true ∧ badcap = true then
      q_loop env qr ppos depth beta ic rest st
    else
      match doMove env ppos m with
      | none => q_loop env qr ppos depth beta ic rest st
      | some child =>
        let sub := qr { st.w with pos := child } (depth - 1) (-beta) (-st.alpha)
        let s := -sub.score
        let w2 := { sub.w with pos := ppos }
        let tr2 := st.tr ++ [Ev.moveE m sub.tr]
        if st.best < s then
          if st.alpha < s then
            if beta ≤ s then
              { best := s, alpha := st.alpha, found := true, w := w2, tr := tr2 }
            else
              q_loop env qr ppos depth beta ic rest
                { best := s, alpha := s, found := true, w := update_pv w2 m, tr := tr2 }
          else
            q_loop env qr ppos depth beta ic rest
              { st with best := s, found := true, w := w2, tr := tr2 }
        else
          q_loop env qr ppos depth beta ic rest { st with found := true, w := w2, tr := tr2 }

/-- `quiescence` (search.c:234-336). In order: node statistics, PV
reset, draw check, static evaluation, ply limit, stand pat (when not in
check), TT probe at depth 0, the move loop, and the checkmate result
when in check with no legal evasion. -/
def quiescence (env : Env) : Nat → Worker → Int → Int → Int → SRes
  | 0, w, _, _, _ => ⟨0, w, []⟩
  | fuel + 1, w, depth, alpha, beta =>
    let pos := w.pos
    let w1 := if depth < 0 then { w with nodes := w.nodes + 1 } else w
    let w2 := { w1 with pvTable := fun t => if t = pos.sply then [] else w1.pvTable t }
    if env.isRep pos = true ∨ 100 ≤ pos.fifty then ⟨0, w2, []⟩
    else
      let ss := env.evalScore pos
      if MAX_PLY ≤ pos.sply then ⟨ss, w2, [Ev.evalE]⟩
      else
        let ic := env.inCheck pos
        let best0 : Int := if ic = true then -INFINITE_SCORE else ss
        if ic = false ∧ beta ≤ ss then ⟨ss, w2, [Ev.evalE]⟩
        else
          let alpha1 := if ic = false ∧ alpha < ss then ss else alpha
          let tl := env.ttLookup pos 0 alpha1 beta
          if tl.1 = true then ⟨tl.2.2, w2, [Ev.evalE, Ev.ttLookupE]⟩
          else
            let st := q_loop env (fun w d a b => quiescence env fuel w d a b)
              pos depth beta ic (env.qmoves pos tl.2.1)
              ⟨best0, alpha1, false, w2, [Ev.evalE, Ev.ttLookupE]⟩
            ⟨if ic = true ∧ st.found = false then -CHECKMATE + (pos.sply : Int) else st.best,
             st.w, st.tr⟩

/-! ## Main search (search.c:338-687).

The body of one `search` node is split stage by stage, following the
order of operations in the source; `sr` stands for the recursive call
and is tied at the end with a fuel argument. -/

/-- Node-entry bookkeeping of `search` for depth >= 1 (search.c:370,
384-389): bump the node counter, update the selective depth and reset
the PV of the current ply. -/
def search_entry (w : Worker) : Worker :=
  let w1 := { w with nodes := w.nodes + 1 }
  let w2 := if w1.seldepth < w.pos.sply then { w1 with seldepth := w.pos.sply } else w1
  { w2 with pvTable := fun t => if t = w.pos.sply then [] else w2.pvTable t }

/-- Condition of reverse futility pruning (search.c:430-434). `pvNode`
is `beta - alpha > 1`. -/
abbrev rfp_cond (env : Env) (pos : Pos) (depth alpha beta ss : Int) : Prop :=
  depth ≤ 3 ∧ env.inCheck pos = false ∧ ¬(1 < beta - alpha) ∧
    env.hasNonPawn pos = true ∧ beta ≤ ss - futility_margin depth

/-- Condition of razoring (search.c:443-447). -/
abbrev razor_cond (env : Env) (pos : Pos) (ttm : Move) (depth alpha beta ss : Int) : Prop :=
  env.inCheck pos = false ∧ ¬(1 < beta - alpha) ∧ ttm = NOMOVE ∧
    depth ≤ 3 ∧ ss + razoring_margin depth ≤ alpha

/-- Condition of null-move pruning (search.c:465-468). -/
abbrev null_cond (env : Env) (pos : Pos) (depth : Int) (tryNull : Bool) : Prop :=
  tryNull = true ∧ env.inCheck pos = false ∧ 3 < depth ∧ env.hasNonPawn pos = true

/-- Condition of ProbCut (search.c:488-489). -/
abbrev probcut_cond (env : Env) (pos : Pos) (depth alpha beta : Int) : Prop :=
  ¬(1 < beta - alpha) ∧ env.inCheck pos = false ∧ 5 ≤ depth ∧
    env.hasNonPawn pos = true

/-- State of the main move loop: best score, best move, the running
lower bound, the TT bound kind, the move counter, the legal-move flag,
worker and trace. -/
structure MSt where
  best : Int
  bestMove : Move
  alpha : Int
  ttFlag : TTFlag
  movenumber : Nat
  found : Bool
  w : Worker
  tr : List Ev

/-- The principal-variation-search cascade for one move
(search.c:608-634): full window for the first move, otherwise a reduced
zero-window search, re-searched at full depth if it improved alpha and
was reduced, and re-searched with the full window at PV nodes. Returns
the score, the worker with the position restored to `ppos`, and the
concatenated subtree traces. -/
def pvs_cascade (sr : Worker → Int → Int → Int → Bool → SRes)
    (w : Worker) (ppos : Pos) (newDepth reduction alpha beta best : Int)
    (pvNode : Bool) : Int × Worker × List Ev :=
  if best = -INFINITE_SCORE then
    let sub := sr w (newDepth - 1) (-beta) (-alpha) true
    (-sub.score, { sub.w with pos := ppos }, sub.tr)
  else
    let sub1 := sr w (newDepth - reduction - 1) (-alpha - 1) (-alpha) true
    let r1 : Int × Worker × List Ev := (-sub1.score, sub1.w, sub1.tr)
    let r2 : Int × Worker × List Ev :=
      if alpha < r1.1 ∧ 0 < reduction then
        let sub2 := sr r1.2.1 (newDepth - 1) (-alpha - 1) (-alpha) true
        (-sub2.score, sub2.w, r1.2.2 ++ sub2.tr)
      else r1
    if pvNode = true ∧ alpha < r2.1 then
      let sub3 := sr r2.2.1 (newDepth - 1) (-beta) (-alpha) true
      (-sub3.score, { sub3.w with pos := ppos }, r2.2.2 ++ sub3.tr)
    else (r2.1, { r2.2.1 with pos := ppos }, r2.2.2)

/-- The main move loop (search.c:539-668): per legal move, futility
pruning, late move pruning, SEE pruning, the check extension, late move
reduction, the PVS cascade and the bound updates; a score at or above
beta adds a killer move and stops the loop. -/
def mv_loop (env : Env) (sr : Worker → Int → Int → Int → Bool → SRes)
    (ppos : Pos) (depth beta : Int) (pvNode ic fut : Bool) (ttm : Move) :
    List Move → MSt → MSt
  | [], st => st
  | m :: rest, st =>
    let pawnPush := env.isPawnPush ppos m
    let killer := is_killer_move st.w m
    let hist := st.w.historyTable ppos.stm m.fromSq m.toSq
    match doMove env ppos m with
    | none => mv_loop env sr ppos depth beta pvNode ic fut ttm rest st
    | some child =>
      let gives := env.inCheck child
      let tactical := is_tactical_move m || ic || gives
      let mn := st.movenumber + 1
      let st := { st with movenumber := mn, found := true }
      let newDepth := if gives = true then depth + 1 else depth
      if fut = true ∧ 1 < mn ∧ tactical = false then
        mv_loop env sr ppos depth beta pvNode ic fut ttm rest st
      else if pvNode = false ∧ depth < 6 ∧ lmp_counts depth < (mn : Int) ∧ 1 < mn ∧
          tactical = false ∧ pawnPush = false ∧ killer = false ∧
          |st.alpha| < KNOWN_WIN ∧ hist = 0 then
        mv_loop env sr ppos depth beta pvNode ic fut ttm rest st
      else if pvNode = false ∧ m ≠ ttm ∧ ic = false ∧ gives = false ∧ depth < 5 ∧
          env.seePostGE child m (see_prune_margin depth) = false then
        mv_loop env sr ppos depth beta pvNode ic fut ttm rest st
      else
        let reduction : Int :=
          if 3 < mn ∧ 3 < depth ∧ tactical = false then (if 6 < mn then 2 else 1) else 0
        let r := pvs_cascade sr { st.w with pos := child } ppos newDepth reduction
          st.alpha beta st.best pvNode
        let st := { st with w := r.2.1, tr := st.tr ++ [Ev.moveE m r.2.2] }
        if st.best < r.1 then
          if st.alpha < r.1 then
            if beta ≤ r.1 then
              { st with
                best := r.1
                bestMove := m
                ttFlag := TTFlag.beta
                w := add_killer_move env st.w m }
            else
              mv_loop env sr ppos depth beta pvNode ic fut ttm rest
                { st with
                  best := r.1
                  bestMove := m
                  alpha := r.1
                  ttFlag := TTFlag.exact
                  w := update_history_table (update_pv st.w m) m depth }
          else
            mv_loop env sr ppos depth beta pvNode ic fut ttm rest
              { st with best := r.1, bestMove := m }
        else
          mv_loop env sr ppos depth beta pvNode ic fut ttm rest st

/-- The tail of a `search` node (search.c:527-686): the futility flag,
the move loop, the mate/stalemate result when no legal move was found
and the TT store. -/
def search_moves (env : Env) (sr : Worker → Int → Int → Int → Bool → SRes)
    (w : Worker) (depth alpha beta : Int) (pvNode ic : Bool) (ttm : Move)
    (ss : Int) (tr : List Ev) : SRes :=
  let fut : Bool := decide (depth ≤ 3 ∧ ss + futility_margin depth ≤ alpha)
  let st := mv_loop env sr w.pos depth beta pvNode ic fut ttm (env.moves w.pos ttm)
    ⟨-INFINITE_SCORE, NOMOVE, alpha, TTFlag.alpha, 0, false, w, tr⟩
  let best := if st.found = false then
      (if ic = true then -CHECKMATE + (w.pos.sply : Int) else 0)
    else st.best
  let flag := if st.found = false then TTFlag.exact else st.ttFlag
  ⟨best, st.w, st.tr ++ [Ev.ttStoreE st.bestMove depth best flag]⟩

/-- The ProbCut capture loop (search.c:494-516): skip non-captures and
captures whose SEE does not reach `threshold - static`, search the rest
with a zero window at `depth - 4`, and return the first score at or
above the threshold. -/
def pc_loop (env : Env) (sr : Worker → Int → Int → Int → Bool → SRes)
    (ppos : Pos) (depth threshold ss : Int) :
    List (Move × Bool) → Worker → List Ev → Option Int × Worker × List Ev
  | [], w, tr => (none, w, tr)
  | (m, _) :: rest, w, tr =>
    if ¬(m.capture = true ∨ m.ep = true) then
      pc_loop env sr ppos depth threshold ss rest w tr
    else if env.seeGE ppos m (threshold - ss) = false then
      pc_loop env sr ppos depth threshold ss rest w tr
    else
      match doMove env ppos m with
      | none => pc_loop env sr ppos depth threshold ss rest w tr
      | some child =>
        let sub := sr { w with pos := child } (depth - 5 + 1) (-threshold) (-threshold + 1) true
        let w2 := { sub.w with pos := ppos }
        let tr2 := tr ++ [Ev.moveE m sub.tr]
        if threshold ≤ -sub.score then (some (-sub.score), w2, tr2)
        else pc_loop env sr ppos depth threshold ss rest w2 tr2

/-- The ProbCut stage (search.c:483-519). -/
def search_probcut (env : Env) (sr : Worker → Int → Int → Int → Bool → SRes)
    (w : Worker) (depth alpha beta : Int) (pvNode ic : Bool) (ttm : Move)
    (ss : Int) (tr : List Ev) : SRes :=
  if probcut_cond env w.pos depth alpha beta then
    let threshold := beta + 210
    let r := pc_loop env sr w.pos depth threshold ss (env.qmoves w.pos ttm) w tr
    match r.1 with
    | some s => ⟨s, r.2.1, r.2.2⟩
    | none => search_moves env sr r.2.1 depth alpha beta pvNode ic ttm ss r.2.2
  else search_moves env sr w depth alpha beta pvNode ic ttm ss tr

/-- The null-move pruning stage (search.c:459-481): reduction
`2 + depth/6`, zero-window search around beta with `try_null` false; a
score at or above beta is returned, clamped to beta when it is a forced
mate score. -/
def search_null (env : Env) (sr : Worker → Int → Int → Int → Bool → SRes)
    (w : Worker) (depth alpha beta : Int) (tryNull pvNode ic : Bool) (ttm : Move)
    (ss : Int) (tr : List Ev) : SRes :=
  if null_cond env w.pos depth tryNull then
    let reduction := 2 + depth / 6
    let sub := sr { w with pos := doNull env w.pos } (depth - reduction - 1)
      (-beta) (-beta + 1) false
    let w2 := { sub.w with pos := w.pos }
    let s := -sub.score
    let tr2 := tr ++ [Ev.nullE sub.tr]
    if beta ≤ s then ⟨if s < FORCED_MATE then s else beta, w2, tr2⟩
    else search_probcut env sr w2 depth alpha beta pvNode ic ttm ss tr2
  else search_probcut env sr w depth alpha beta pvNode ic ttm ss tr

/-- One `search` node (search.c:338-687): drop to quiescence at depth
<= 0, node bookkeeping, draw check, TT probe, tablebase probe, static
evaluation, reverse futility pruning, razoring, and the later stages. -/
def search_node (env : Env) (sr : Worker → Int → Int → Int → Bool → SRes)
    (w : Worker) (depth alpha beta : Int) (tryNull : Bool) : SRes :=
  let pos := w.pos
  let pvNode : Bool := decide (1 < beta - alpha)
  let ic := env.inCheck pos
  if depth ≤ 0 then
    quiescence env (MAX_PLY + 2) { w with nodes := w.nodes + 1 } 0 alpha beta
  else
    let w2 := search_entry w
    if env.isRep pos = true ∨ 100 ≤ pos.fifty then ⟨0, w2, []⟩
    else
      let tl := env.ttLookup pos depth alpha beta
      if tl.1 = true then ⟨tl.2.2, w2, [Ev.ttLookupE]⟩
      else
        let ttm := tl.2.1
        match env.tbProbe pos with
        | some tbs => ⟨tbs, w2, [Ev.ttLookupE]⟩
        | none =>
          let ss := env.evalScore pos
          let tr := [Ev.ttLookupE, Ev.evalE]
          if rfp_cond env pos depth alpha beta ss then ⟨ss, w2, tr⟩
          else if razor_cond env pos ttm depth alpha beta ss then
            if depth = 1 then
              let q := quiescence env (MAX_PLY + 2) w2 0 alpha beta
              ⟨q.score, q.w, tr ++ q.tr⟩
            else
              let th := alpha - razoring_margin depth
              let q := quiescence env (MAX_PLY + 2) w2 0 th (th + 1)
              if q.score ≤ th then ⟨q.score, q.w, tr ++ q.tr⟩
              else search_null env sr q.w depth alpha beta tryNull pvNode ic ttm ss (tr ++ q.tr)
          else search_null env sr w2 depth alpha beta tryNull pvNode ic ttm ss tr

/-- `search` (search.c:338-687), tied with a fuel argument: recursion in
the C function is bounded by repetition and fifty-move cutoffs of real
chess, which the abstract environment cannot provide, so each recursive
call consumes one unit of fuel. All node-level claims hold for every
positive fuel. -/
def search (env : Env) : Nat → Worker → Int → Int → Int → Bool → SRes
  | 0, w, _, _, _, _ => ⟨0, w, []⟩
  | fuel + 1, w, depth, alpha, beta, tryNull =>
    search_node env (fun w d a b t => search env fuel w d a b t) w depth alpha beta tryNull

/-! ## Iterative deepening (search.c:806-910).

The loop state of `search_find_best_move` and its transition after one
`search_root` call. `search_root` itself, `smp_complete_iteration`,
`tc_new_iteration` and the stop machinery are external, so the score the
root search produced, the suggested next depth and the controller
answers are inputs of the transition. -/

/-- The mutable loop state of `search_find_best_move`: window bounds,
aspiration indices, iteration depth and the per-worker
`resolving_root_fail` flag. -/
structure IDState where
  alpha : Int
  beta : Int
  awindex : Nat
  bwindex : Nat
  depth : Int
  resolving : Bool
deriving DecidableEq, Repr

/-- What the iterative-deepening loop does next: re-search the same
depth with a widened window, start the next iteration, or leave the
loop. -/
inductive IDOutcome where
  | research : IDState → IDOutcome
  | iterate : IDState → IDOutcome
  | halt : IDState → IDOutcome
deriving DecidableEq, Repr

/-- The state carried by an `IDOutcome`. -/
def IDOutcome.state : IDOutcome → IDState
  | .research s => s
  | .iterate s => s
  | .halt s => s

/-- One turn of the iterative-deepening loop after `search_root`
returned `score` (search.c:839-892): widen the failing bound on a fail
low or fail high (setting `resolving_root_fail` on a fail low),
otherwise complete the iteration (`nextDepth` is the depth suggested by
`smp_complete_iteration`), stop on a known win when `exit_on_mate` and
not pondering, set up the next window (aspiration of 25 around the
score when the next depth is above 5, infinite otherwise), and stop if
the time controller refuses a new iteration or the depth limit `sd` is
passed. -/
def id_transition (st : IDState) (score nextDepth : Int)
    (exitOnMate pondering tcOk : Bool) (sd : Int) : IDOutcome :=
  if score ≤ st.alpha then
    IDOutcome.research { st with
      awindex := st.awindex + 1
      alpha := score - aspiration_window (st.awindex + 1)
      resolving := true }
  else if st.beta ≤ score then
    IDOutcome.research { st with
      bwindex := st.bwindex + 1
      beta := score + aspiration_window (st.bwindex + 1) }
  else
    let st1 := { st with resolving := false, depth := nextDepth }
    if exitOnMate = true ∧ pondering = false ∧ (KNOWN_WIN < score ∨ score < -KNOWN_WIN) then
      IDOutcome.halt st1
    else
      let st2 :=
        if 5 < nextDepth then
          { st1 with
            awindex := 0
            bwindex := 0
            alpha := score - aspiration_window 0
            beta := score + aspiration_window 0 }
        else
          { st1 with
            awindex := 0
            bwindex := 0
            alpha := -INFINITE_SCORE
            beta := INFINITE_SCORE }
      if tcOk = false then IDOutcome.halt st2
      else if sd < nextDepth then IDOutcome.halt st2
      else IDOutcome.iterate st2

/-- The stop decision of `checkup` (search.c:211-216): a worker unwinds
on a stop request unless the stop is soft (`abort` false) and the worker
is resolving a root fail. -/
def checkup_stops (stop abort resolving : Bool) : Bool :=
  stop && (abort || !resolving)

/-! ## Concrete instances used to evaluate the embedding. -/

/-- A concrete position. -/
def pos0 : Pos := ⟨0, 0, 0, 0⟩

/-- A concrete worker with cleared tables, as `search_get_quiscence_score`
initialises one. -/
def w0 : Worker :=
  ⟨pos0, fun _ => [], fun _ => (NOMOVE, NOMOVE), fun _ _ _ => 0, 0, 0⟩

/-- A concrete environment: no checks, no repetitions, evaluation 0, no
legal moves, TT always missing, no tablebases. -/
def env0 : Env where
  inCheck := fun _ => false
  isRep := fun _ => false
  evalScore := fun _ => 0
  hasNonPawn := fun _ => false
  makeMove := fun _ _ => none
  makeNull := fun p => p
  ttLookup := fun _ _ _ _ => (false, NOMOVE, 0)
  tbProbe := fun _ => none
  seeGE := fun _ _ _ => false
  seePostGE := fun _ _ _ => false
  isPawnPush := fun _ _ => false
  moves := fun _ _ => []
  qmoves := fun _ _ => []

/-! ## Claim C10: `update_pv`. -/

/-- C10: after `update_pv(worker, move)` at search ply `s = pos->sply`,
the PV at ply `s` is `move` followed by the PV previously stored at ply
`s+1`, its length is one more than the length at `s+1`, and the PV of
every other ply is unchanged. -/
theorem update_pv_spec (w : Worker) (move : Move) :
    (update_pv w move).pvTable w.pos.sply = move :: w.pvTable (w.pos.sply + 1) ∧
    ((update_pv w move).pvTable w.pos.sply).length =
      (w.pvTable (w.pos.sply + 1)).length + 1 ∧
    ∀ t, t ≠ w.pos.sply → (update_pv w move).pvTable t = w.pvTable t := by
  refine ⟨by simp [update_pv], by simp [update_pv], ?_⟩
  intro t ht
  simp [update_pv, ht]

/-- Witness for `update_pv_spec` at a concrete worker and ply. -/
theorem update_pv_spec_w :
    (3 : Nat) ≠ w0.pos.sply ∧ (update_pv w0 NOMOVE).pvTable 3 = w0.pvTable 3 :=
  ⟨by decide, (update_pv_spec w0 NOMOVE).2.2 3 (by decide)⟩

/-! ## Claim C6: `update_history_table`. -/

/-- C6: a history update for a quiet move adds `depth` to the cell for
(side to move, from, to); whenever that cell then exceeds
`MAX_HISTORY_SCORE` the whole table is halved before the update
returns; and provided every cell respected the cap (and was
non-negative) before the update and `depth` is between 0 and the cap —
both invariants of the caller, which passes the remaining search depth —
no cell exceeds the cap after the update returns. -/
theorem update_history_spec (w : Worker) (move : Move) (depth : Int)
    (hcap : move.capture = false) (hep : move.ep = false)
    (hd0 : 0 ≤ depth) (hdm : depth ≤ MAX_HISTORY_SCORE)
    (hinv : ∀ s f t, 0 ≤ w.historyTable s f t ∧
      w.historyTable s f t ≤ MAX_HISTORY_SCORE) :
    (MAX_HISTORY_SCORE < w.historyTable w.pos.stm move.fromSq move.toSq + depth →
      ∀ s f t, (update_history_table w move depth).historyTable s f t =
        (if s = w.pos.stm ∧ f = move.fromSq ∧ t = move.toSq then
          w.historyTable s f t + depth else w.historyTable s f t) / 2) ∧
    (w.historyTable w.pos.stm move.fromSq move.toSq + depth ≤ MAX_HISTORY_SCORE →
      ∀ s f t, (update_history_table w move depth).historyTable s f t =
        (if s = w.pos.stm ∧ f = move.fromSq ∧ t = move.toSq then
          w.historyTable s f t + depth else w.historyTable s f t)) ∧
    (∀ s f t, (update_history_table w move depth).historyTable s f t ≤
      MAX_HISTORY_SCORE) := by
  have hnc : ¬(move.capture = true ∨ move.ep = true) := by simp [hcap, hep]
  refine ⟨?_, ?_, ?_⟩
  · intro hover s f t
    simp [update_history_table, hnc, hover]
  · intro hunder s f t
    have hno : ¬(MAX_HISTORY_SCORE <
        w.historyTable w.pos.stm move.fromSq move.toSq + depth) := by omega
    simp [update_history_table, hnc, hno]
  · intro s f t
    have h1 := hinv s f t
    by_cases hover : MAX_HISTORY_SCORE <
        w.historyTable w.pos.stm move.fromSq move.toSq + depth
    · simp only [update_history_table, if_neg hnc]
      simp [hover]
      split
      · next hk =>
        obtain ⟨hs, hf, ht⟩ := hk
        subst hs; subst hf; subst ht
        omega
      · omega
    · simp only [update_history_table, if_neg hnc]
      simp [hover]
      split
      · next hk =>
        obtain ⟨hs, hf, ht⟩ := hk
        subst hs; subst hf; subst ht
        omega
      · omega

/-- Witness for `update_history_spec`: a quiet move on the cleared
table, where no halving is needed and the cap holds afterwards. -/
theorem update_history_spec_w :
    (update_history_table w0 NOMOVE 7).historyTable 0 0 0 ≤ MAX_HISTORY_SCORE :=
  (update_history_spec w0 NOMOVE 7 (by decide) (by decide) (by decide)
    (by decide)
    (fun s f t => ⟨by norm_num [w0], by norm_num [w0, MAX_HISTORY_SCORE]⟩)).2.2 0 0 0

/-! ## Claim C7: `add_killer_move`. -/

/-- An environment in which every capture loses material
(`see_ge` always false). -/
def envC7 : Env := { env0 with seeGE := fun _ _ _ => false }

/-- A capture move. -/
def mC7 : Move := ⟨1, 2, true, false, false, 0⟩

/-- Counterexample to C7 as stated: `add_killer_move` rejects only
winning or equal captures (`see_ge(pos, move, 0)` true), so a losing
capture that caused a beta cutoff is stored in the killer table; the
stored slot-0 move here is a capture. -/
theorem add_killer_losing_capture_cx :
    ((add_killer_move envC7 w0 mC7).killerTable w0.pos.sply).1 = mC7 ∧
    mC7.capture = true := by
  constructor
  · rfl
  · rfl

/-- C7 (amended): a winning or equal capture (capture or en passant with
SEE >= 0) is never inserted — losing captures may be stored, so killers
are not always non-captures; a move equal to the current slot-0 killer
is not re-inserted; any other insertion puts the move at slot 0, shifts
the previous slot-0 killer to slot 1 and leaves every other ply
unchanged. -/
theorem add_killer_spec (env : Env) (w : Worker) (move : Move) :
    ((move.capture = true ∨ move.ep = true) ∧ env.seeGE w.pos move 0 = true →
      add_killer_move env w move = w) ∧
    (move = (w.killerTable w.pos.sply).1 → add_killer_move env w move = w) ∧
    (¬((move.capture = true ∨ move.ep = true) ∧ env.seeGE w.pos move 0 = true) →
      move ≠ (w.killerTable w.pos.sply).1 →
      (add_killer_move env w move).killerTable w.pos.sply =
        (move, (w.killerTable w.pos.sply).1) ∧
      ∀ p, p ≠ w.pos.sply →
        (add_killer_move env w move).killerTable p = w.killerTable p) := by
  refine ⟨?_, ?_, ?_⟩
  · intro h
    simp [add_killer_move, h]
  · intro h
    by_cases hwin : (move.capture = true ∨ move.ep = true) ∧ env.seeGE w.pos move 0 = true
    · simp [add_killer_move, hwin]
    · simp [add_killer_move, hwin, h]
  · intro hwin hne
    constructor
    · simp [add_killer_move, hwin, hne]
    · intro p hp
      simp [add_killer_move, hwin, hne, hp]

/-- Witness for `add_killer_spec`: inserting a quiet move into the
cleared killer table of `w0` would shift slots, and re-inserting the
current slot-0 move is a no-op. -/
theorem add_killer_spec_w :
    NOMOVE = (w0.killerTable w0.pos.sply).1 ∧
    add_killer_move env0 w0 NOMOVE = w0 :=
  ⟨by decide, (add_killer_spec env0 w0 NOMOVE).2.1 (by decide)⟩

/-! ## Claim C5: the aspiration loop of `search_find_best_move`. -/

/-- A loop state in mid-iteration at depth 7 with the standard first
window and the `resolving_root_fail` flag clear. -/
def stC5 : IDState := ⟨-25, 25, 0, 0, 7, false⟩

/-- Counterexample to C5 as stated: on a root fail high (score 30 >=
beta 25) the loop widens beta following the schedule and re-searches,
but `resolving_root_fail` is left unchanged (false here) — it is set
only on a fail low (search.c:843-852). -/
theorem id_fail_high_resolving_cx :
    stC5.beta ≤ 30 ∧
    id_transition stC5 30 8 false false true 100 =
      IDOutcome.research ⟨-25, 80, 0, 1, 7, false⟩ ∧
    (id_transition stC5 30 8 false false true 100).state.resolving = false := by
  refine ⟨by decide, by decide, by decide⟩

/-- C5 (amended): a fail low (score <= alpha) widens only alpha along
the schedule {25, 50, 100, 200, 400, INFINITE} and sets
`resolving_root_fail`; a fail high (score >= beta) widens only beta
along the schedule and leaves `resolving_root_fail` unchanged; a score
inside the window clears the flag and the next iteration starts with
the window from `score - 25` to `score + 25` when the next depth is above 5 and an
infinite window otherwise; while the flag is set, `checkup` unwinds
only on an abort, not on a soft stop. -/
theorem id_transition_spec (st : IDState) (score nextDepth : Int)
    (eom pond tcOk : Bool) (sd : Int) :
    (score ≤ st.alpha →
      id_transition st score nextDepth eom pond tcOk sd =
        IDOutcome.research { st with
          awindex := st.awindex + 1
          alpha := score - aspiration_window (st.awindex + 1)
          resolving := true }) ∧
    (st.alpha < score → st.beta ≤ score →
      id_transition st score nextDepth eom pond tcOk sd =
        IDOutcome.research { st with
          bwindex := st.bwindex + 1
          beta := score + aspiration_window (st.bwindex + 1) }) ∧
    (st.alpha < score → score < st.beta →
      ¬(eom = true ∧ pond = false ∧ (KNOWN_WIN < score ∨ score < -KNOWN_WIN)) →
      5 < nextDepth →
      (id_transition st score nextDepth eom pond tcOk sd).state.alpha = score - 25 ∧
      (id_transition st score nextDepth eom pond tcOk sd).state.beta = score + 25 ∧
      (id_transition st score nextDepth eom pond tcOk sd).state.resolving = false) ∧
    (st.alpha < score → score < st.beta →
      ¬(eom = true ∧ pond = false ∧ (KNOWN_WIN < score ∨ score < -KNOWN_WIN)) →
      nextDepth ≤ 5 →
      (id_transition st score nextDepth eom pond tcOk sd).state.alpha =
        -INFINITE_SCORE ∧
      (id_transition st score nextDepth eom pond tcOk sd).state.beta =
        INFINITE_SCORE ∧
      (id_transition st score nextDepth eom pond tcOk sd).state.resolving = false) ∧
    (∀ stop abort : Bool, checkup_stops stop abort true = (stop && abort)) := by
  refine ⟨?_, ?_, ?_, ?_, ?_⟩
  · intro h
    simp [id_transition, h]
  · intro h1 h2
    rw [id_transition, if_neg (by omega), if_pos h2]
  · intro h1 h2 hm hd
    have h1' : ¬(score ≤ st.alpha) := by omega
    have h2' : ¬(st.beta ≤ score) := by omega
    simp only [id_transition, if_neg h1', if_neg h2', if_neg hm, if_pos hd]
    have ha : aspiration_window 0 = 25 := by decide
    by_cases htc : tcOk = false
    · simp [htc, IDOutcome.state, ha]
    · simp only [if_neg htc]
      by_cases hsd : sd < nextDepth
      · simp [hsd, IDOutcome.state, ha]
      · simp [hsd, IDOutcome.state, ha]
  · intro h1 h2 hm hd
    have h1' : ¬(score ≤ st.alpha) := by omega
    have h2' : ¬(st.beta ≤ score) := by omega
    have hd' : ¬(5 < nextDepth) := by omega
    simp only [id_transition, if_neg h1', if_neg h2', if_neg hm, if_neg hd']
    by_cases htc : tcOk = false
    · simp [htc, IDOutcome.state]
    · simp only [if_neg htc]
      by_cases hsd : sd < nextDepth
      · simp [hsd, IDOutcome.state]
      · simp [hsd, IDOutcome.state]
  · intro stop abort
    cases stop <;> cases abort <;> rfl

/-- Witness for `id_transition_spec`: a fail low at the first window
widens alpha to the second schedule entry and raises the flag. -/
theorem id_transition_spec_w :
    (-30 : Int) ≤ stC5.alpha ∧
    id_transition stC5 (-30) 8 false false true 100 =
      IDOutcome.research ⟨-30 - 50, 25, 1, 0, 7, true⟩ :=
  ⟨by decide, by
    have h := (id_transition_spec stC5 (-30) 8 false false true 100).1 (by decide)
    rw [h]
    decide⟩

/-- At razoring depths the razoring margin is at least 100. -/
theorem razoring_margin_ge (d : Int) (h1 : 1 ≤ d) (h3 : d ≤ 3) :
    100 ≤ razoring_margin d := by
  have : d = 1 ∨ d = 2 ∨ d = 3 := by omega
  rcases this with h | h | h <;> simp [razoring_margin, h]

/-- The futility margin is never negative. -/
theorem futility_margin_nonneg (d : Int) : 0 ≤ futility_margin d := by
  unfold futility_margin
  split
  · norm_num
  · split
    · norm_num
    · split <;> norm_num

/-! ## Claim C2: the draw short-circuit. -/

/-- C2: at a repetition or with the fifty-move counter at 100 or more,
both `search` (depth >= 1) and `quiescence` return exactly 0, and their
event trace is empty — in particular no evaluation, no transposition
table access and no move is made before returning. -/
theorem draw_short_circuit (env : Env) (fuel : Nat) (w : Worker)
    (depth alpha beta : Int) (tryNull : Bool)
    (hdraw : env.isRep w.pos = true ∨ 100 ≤ w.pos.fifty) (hd : 1 ≤ depth) :
    ((search env (fuel + 1) w depth alpha beta tryNull).score = 0 ∧
     (search env (fuel + 1) w depth alpha beta tryNull).tr = []) ∧
    ((quiescence env (fuel + 1) w depth alpha beta).score = 0 ∧
     (quiescence env (fuel + 1) w depth alpha beta).tr = []) := by
  constructor
  · have hd0 : ¬(depth ≤ 0) := by omega
    constructor <;> simp [search, search_node, hd0, hdraw]
  · constructor <;> simp [quiescence, hdraw]

/-- Witness for `draw_short_circuit`: a position with the fifty-move
counter at 100. -/
theorem draw_short_circuit_w :
    (100 ≤ (⟨⟨0, 0, 100, 0⟩, w0.pvTable, w0.killerTable, w0.historyTable, 0, 0⟩ :
        Worker).pos.fifty) ∧
    (search env0 1 ⟨⟨0, 0, 100, 0⟩, w0.pvTable, w0.killerTable, w0.historyTable, 0, 0⟩
        1 (-30000) 30000 true).score = 0 :=
  ⟨by decide,
    ((draw_short_circuit env0 0 _ 1 (-30000) 30000 true
      (Or.inr (by decide)) (by decide)).1).1⟩

/-! ## Claim C1: mate and stalemate scores. -/

/-- When every emitted move is illegal, the main move loop changes
nothing: in particular `found` stays false. -/
theorem mv_loop_all_illegal (env : Env) (sr : Worker → Int → Int → Int → Bool → SRes)
    (ppos : Pos) (depth beta : Int) (pvNode ic fut : Bool) (ttm : Move) :
    ∀ (l : List Move) (st : MSt), (∀ m ∈ l, doMove env ppos m = none) →
      mv_loop env sr ppos depth beta pvNode ic fut ttm l st = st := by
  intro l
  induction l with
  | nil => intro st _; rfl
  | cons m rest ih =>
    intro st h
    have hm : doMove env ppos m = none := h m (by simp)
    simp only [mv_loop, hm]
    exact ih st (fun m' hm' => h m' (by simp [hm']))

/-- When every emitted move is illegal, the quiescence move loop changes
nothing. -/
theorem q_loop_all_illegal (env : Env) (qr : Worker → Int → Int → Int → SRes)
    (ppos : Pos) (depth beta : Int) (ic : Bool) :
    ∀ (l : List (Move × Bool)) (st : QSt), (∀ mb ∈ l, doMove env ppos mb.1 = none) →
      q_loop env qr ppos depth beta ic l st = st := by
  intro l
  induction l with
  | nil => intro st _; rfl
  | cons mb rest ih =>
    intro st h
    have hm : doMove env ppos mb.1 = none := h mb (by simp)
    obtain ⟨m, badcap⟩ := mb
    by_cases hskip : ic = false ∧ m.capture = true ∧ badcap = true
    · simp only [q_loop, if_pos hskip]
      exact ih st (fun m' hm' => h m' (by simp [hm']))
    · simp only [q_loop, if_neg hskip, hm]
      exact ih st (fun m' hm' => h m' (by simp [hm']))

/-- C1: (a) whenever the move loop of a `search` node finds no legal
move, the node returns `-CHECKMATE + sply` when the side to move is in
check and 0 otherwise (search.c:678-681); (b) a `quiescence` node that
reaches its move loop in check (past the draw check, the ply limit and
the TT probe) and finds no legal evasion returns `-CHECKMATE + sply`
(search.c:331-336). -/
theorem mate_stalemate_scores :
    (∀ (env : Env) (sr : Worker → Int → Int → Int → Bool → SRes) (w : Worker)
        (depth alpha beta : Int) (pvNode ic : Bool) (ttm : Move) (ss : Int)
        (tr : List Ev),
      (∀ m ∈ env.moves w.pos ttm, doMove env w.pos m = none) →
      (search_moves env sr w depth alpha beta pvNode ic ttm ss tr).score =
        (if ic = true then -CHECKMATE + (w.pos.sply : Int) else 0)) ∧
    (∀ (env : Env) (fuel : Nat) (w : Worker) (depth alpha beta : Int),
      env.isRep w.pos = false → w.pos.fifty < 100 → w.pos.sply < MAX_PLY →
      env.inCheck w.pos = true →
      (env.ttLookup w.pos 0 alpha beta).1 = false →
      (∀ mb ∈ env.qmoves w.pos (env.ttLookup w.pos 0 alpha beta).2.1,
        doMove env w.pos mb.1 = none) →
      (quiescence env (fuel + 1) w depth alpha beta).score =
        -CHECKMATE + (w.pos.sply : Int)) := by
  constructor
  · intro env sr w depth alpha beta pvNode ic ttm ss tr hmoves
    simp only [search_moves]
    rw [mv_loop_all_illegal env sr w.pos depth beta pvNode ic _ ttm
      (env.moves w.pos ttm) _ hmoves]
    simp
  · intro env fuel w depth alpha beta hrep h50 hply hic htt hmoves
    have hdraw : ¬(env.isRep w.pos = true ∨ 100 ≤ w.pos.fifty) := by
      simp [hrep]; omega
    have hply' : ¬(MAX_PLY ≤ w.pos.sply) := by omega
    have hloop := q_loop_all_illegal env (fun w d a b => quiescence env fuel w d a b)
      w.pos depth beta true (env.qmoves w.pos (env.ttLookup w.pos 0 alpha beta).2.1)
    simp [quiescence, hdraw, hply', hic, htt]
    rw [hloop _ hmoves]
    simp

/-- An environment in which the side to move is always in check. -/
def envC1 : Env := { env0 with inCheck := fun _ => true }

/-- Witness for `mate_stalemate_scores`: a stalemate `search` node (not
in check, no legal move) scores 0, and a checkmated `quiescence` node
(in check, no legal evasion) scores `-CHECKMATE + sply` at ply 0. -/
theorem mate_stalemate_scores_w :
    (search_moves env0 (fun w _ _ _ _ => ⟨0, w, []⟩) w0 1 (-30000) 30000
      false false NOMOVE 0 []).score = 0 ∧
    (quiescence envC1 1 w0 0 (-30000) 30000).score = -CHECKMATE + (w0.pos.sply : Int) := by
  constructor
  · have h := mate_stalemate_scores.1 env0 (fun w _ _ _ _ => ⟨0, w, []⟩) w0 1
      (-30000) 30000 false false NOMOVE 0 [] (by simp [env0])
    simpa using h
  · exact mate_stalemate_scores.2 envC1 0 w0 0 (-30000) 30000 rfl (by decide)
      (by decide) rfl rfl (by simp [envC1, env0])

/-! ## Claim C4: razoring. -/

/-- C4: at a non-PV node that is not in check, with no TT move, depth
between 1 and 3, and static evaluation plus the razoring margin at most
alpha — once the node has passed the draw check, the TT probe and the
tablebase probe (reverse futility pruning cannot fire here, since the
static score is far below beta) — razoring applies: at depth 1 the node
returns the quiescence score for the original window; at depths 2 and 3
it runs quiescence with the null window around `alpha - margin[depth]`
and returns that score when it stays at or below `alpha - margin[depth]`,
and otherwise razoring does not cause a return — the node continues
with the null-move stage on the state the razoring quiescence left. -/
theorem razoring_stage_spec (env : Env) (fuel : Nat) (w : Worker)
    (depth alpha beta : Int) (tryNull : Bool)
    (h1 : 1 ≤ depth) (h3 : depth ≤ 3) (hab : alpha < beta)
    (hpv : ¬(1 < beta - alpha))
    (hic : env.inCheck w.pos = false)
    (hrep : env.isRep w.pos = false) (h50 : w.pos.fifty < 100)
    (htt : (env.ttLookup w.pos depth alpha beta).1 = false)
    (httm : (env.ttLookup w.pos depth alpha beta).2.1 = NOMOVE)
    (htb : env.tbProbe w.pos = none)
    (hraz : env.evalScore w.pos + razoring_margin depth ≤ alpha) :
    (depth = 1 →
      search env (fuel + 1) w depth alpha beta tryNull =
        ⟨(quiescence env (MAX_PLY + 2) (search_entry w) 0 alpha beta).score,
         (quiescence env (MAX_PLY + 2) (search_entry w) 0 alpha beta).w,
         [Ev.ttLookupE, Ev.evalE] ++
           (quiescence env (MAX_PLY + 2) (search_entry w) 0 alpha beta).tr⟩) ∧
    (2 ≤ depth →
      ((quiescence env (MAX_PLY + 2) (search_entry w) 0 (alpha - razoring_margin depth)
          (alpha - razoring_margin depth + 1)).score ≤ alpha - razoring_margin depth →
        search env (fuel + 1) w depth alpha beta tryNull =
          ⟨(quiescence env (MAX_PLY + 2) (search_entry w) 0 (alpha - razoring_margin depth)
              (alpha - razoring_margin depth + 1)).score,
           (quiescence env (MAX_PLY + 2) (search_entry w) 0 (alpha - razoring_margin depth)
              (alpha - razoring_margin depth + 1)).w,
           [Ev.ttLookupE, Ev.evalE] ++
             (quiescence env (MAX_PLY + 2) (search_entry w) 0 (alpha - razoring_margin depth)
               (alpha - razoring_margin depth + 1)).tr⟩) ∧
      (alpha - razoring_margin depth <
          (quiescence env (MAX_PLY + 2) (search_entry w) 0 (alpha - razoring_margin depth)
            (alpha - razoring_margin depth + 1)).score →
        search env (fuel + 1) w depth alpha beta tryNull =
          search_null env (fun w d a b t => search env fuel w d a b t)
            (quiescence env (MAX_PLY + 2) (search_entry w) 0 (alpha - razoring_margin depth)
              (alpha - razoring_margin depth + 1)).w
            depth alpha beta tryNull false false NOMOVE (env.evalScore w.pos)
            ([Ev.ttLookupE, Ev.evalE] ++
              (quiescence env (MAX_PLY + 2) (search_entry w) 0 (alpha - razoring_margin depth)
                (alpha - razoring_margin depth + 1)).tr))) := by
  have hdraw : ¬(env.isRep w.pos = true ∨ 100 ≤ w.pos.fifty) := by
    simp [hrep]; omega
  have hd0 : ¬(depth ≤ 0) := by omega
  have hrzm : 100 ≤ razoring_margin depth := razoring_margin_ge depth h1 h3
  have hfm : 0 ≤ futility_margin depth := futility_margin_nonneg depth
  have hrfp : ¬ rfp_cond env w.pos depth alpha beta (env.evalScore w.pos) := by
    rintro ⟨-, -, -, -, hb⟩
    omega
  have hrzc : razor_cond env w.pos NOMOVE depth alpha beta (env.evalScore w.pos) :=
    ⟨hic, hpv, rfl, h3, hraz⟩
  have hpv' : decide (1 < beta - alpha) = false := decide_eq_false hpv
  constructor
  · intro hdep1
    subst hdep1
    simp [search, search_node, hd0, hdraw, htt, httm, htb, hrfp, hrzc]
  · intro hdep2
    have hd1 : ¬(depth = 1) := by omega
    constructor
    · intro hq
      simp [search, search_node, hd0, hdraw, htt, httm, htb, hrfp, hrzc, hd1, hq]
    · intro hq
      have hq' : ¬((quiescence env (MAX_PLY + 2) (search_entry w) 0
          (alpha - razoring_margin depth)
          (alpha - razoring_margin depth + 1)).score ≤ alpha - razoring_margin depth) := by
        omega
      simp [search, search_node, hd0, hdraw, htt, httm, htb, hrfp, hrzc, hd1, hq', hpv', hic]

/-- Witness for `razoring_stage_spec`: at depth 1 with a null window far
above the static evaluation the node returns the quiescence score. -/
theorem razoring_stage_spec_w :
    env0.evalScore w0.pos + razoring_margin 1 ≤ 200 ∧
    (search env0 1 w0 1 200 201 true).score =
      (quiescence env0 (MAX_PLY + 2) (search_entry w0) 0 200 201).score :=
  ⟨by decide, by
    have h := (razoring_stage_spec env0 0 w0 1 200 201 true (by decide) (by decide)
      (by decide) (by decide) rfl rfl (by decide) rfl rfl rfl (by decide)).1 rfl
    rw [h]⟩

/-! ## Claim C3: null-move pruning. -/

/-- `search_entry` does not move the position. -/
theorem search_entry_pos (w : Worker) : (search_entry w).pos = w.pos := by
  unfold search_entry
  dsimp only
  split <;> rfl

/-- C3: at a node with `try_null` true, not in check, depth above 3 and
non-pawn material — past the draw check, the TT probe and the tablebase
probe; reverse futility pruning and razoring need depth at most 3 and
cannot fire — a null move is made and searched with the window
`(-beta, -beta + 1)` at depth `depth - (2 + depth/6) - 1` with
`try_null` false; if the resulting score reaches beta the node returns
it, clamped to beta when it is at or above `FORCED_MATE`; otherwise the
node continues with the ProbCut stage carrying the null search's
state. -/
theorem nullmove_stage_spec (env : Env) (fuel : Nat) (w : Worker)
    (depth alpha beta : Int)
    (h4 : 3 < depth)
    (hrep : env.isRep w.pos = false) (h50 : w.pos.fifty < 100)
    (htt : (env.ttLookup w.pos depth alpha beta).1 = false)
    (htb : env.tbProbe w.pos = none)
    (hic : env.inCheck w.pos = false) (hnp : env.hasNonPawn w.pos = true) :
    (beta ≤ -(search env fuel { search_entry w with pos := doNull env w.pos }
        (depth - (2 + depth / 6) - 1) (-beta) (-beta + 1) false).score →
      search env (fuel + 1) w depth alpha beta true =
        ⟨(if -(search env fuel { search_entry w with pos := doNull env w.pos }
              (depth - (2 + depth / 6) - 1) (-beta) (-beta + 1) false).score < FORCED_MATE
          then -(search env fuel { search_entry w with pos := doNull env w.pos }
              (depth - (2 + depth / 6) - 1) (-beta) (-beta + 1) false).score
          else beta),
         { (search env fuel { search_entry w with pos := doNull env w.pos }
              (depth - (2 + depth / 6) - 1) (-beta) (-beta + 1) false).w with pos := w.pos },
         [Ev.ttLookupE, Ev.evalE,
          Ev.nullE (search env fuel { search_entry w with pos := doNull env w.pos }
              (depth - (2 + depth / 6) - 1) (-beta) (-beta + 1) false).tr]⟩) ∧
    (-(search env fuel { search_entry w with pos := doNull env w.pos }
        (depth - (2 + depth / 6) - 1) (-beta) (-beta + 1) false).score < beta →
      search env (fuel + 1) w depth alpha beta true =
        search_probcut env (fun w d a b t => search env fuel w d a b t)
          { (search env fuel { search_entry w with pos := doNull env w.pos }
              (depth - (2 + depth / 6) - 1) (-beta) (-beta + 1) false).w with pos := w.pos }
          depth alpha beta (decide (1 < beta - alpha)) false
          (env.ttLookup w.pos depth alpha beta).2.1 (env.evalScore w.pos)
          [Ev.ttLookupE, Ev.evalE,
           Ev.nullE (search env fuel { search_entry w with pos := doNull env w.pos }
              (depth - (2 + depth / 6) - 1) (-beta) (-beta + 1) false).tr]) := by
  have hdraw : ¬(env.isRep w.pos = true ∨ 100 ≤ w.pos.fifty) := by
    simp [hrep]; omega
  have hd0 : ¬(depth ≤ 0) := by omega
  have hrfp : ¬ rfp_cond env w.pos depth alpha beta (env.evalScore w.pos) := by
    rintro ⟨hd3, -, -, -, -⟩
    omega
  have hrzc : ¬ razor_cond env w.pos (env.ttLookup w.pos depth alpha beta).2.1
      depth alpha beta (env.evalScore w.pos) := by
    rintro ⟨-, -, -, hd3, -⟩
    omega
  have hnullc : null_cond env w.pos depth true := ⟨rfl, hic, h4, hnp⟩
  constructor
  · intro hcut
    simp [search, search_node, search_null, hd0, hdraw, htt, htb, hrfp, hrzc,
      search_entry_pos, hnullc, hcut]
  · intro hlow
    have hcut' : ¬(beta ≤ -(search env fuel
        { search_entry w with pos := doNull env w.pos }
        (depth - (2 + depth / 6) - 1) (-beta) (-beta + 1) false).score) := by
      omega
    simp [search, search_node, search_null, hd0, hdraw, htt, htb, hrfp, hrzc,
      search_entry_pos, hnullc, hcut']

/-- An environment with non-pawn material for the side to move. -/
def envC3 : Env := { env0 with hasNonPawn := fun _ => true }

/-- Witness for `nullmove_stage_spec`: with beta 0 and a null search
scoring 0, the node returns the null-search score. -/
theorem nullmove_stage_spec_w :
    envC3.hasNonPawn w0.pos = true ∧
    (search envC3 1 w0 4 (-5) 0 true).score = 0 := by
  refine ⟨rfl, ?_⟩
  have h := (nullmove_stage_spec envC3 0 w0 4 (-5) 0 (by decide) rfl (by decide)
    rfl rfl rfl rfl).1 (by simp [search])
  rw [h]
  simp [search]

/-! ## Claim C8: quiescence termination. -/

/-- A successful `doMove` puts the child one search ply deeper. -/
theorem doMove_sply (env : Env) (pos : Pos) (m : Move) (child : Pos)
    (h : doMove env pos m = some child) : child.sply = pos.sply + 1 := by
  unfold doMove at h
  cases hm : env.makeMove pos m with
  | none => rw [hm] at h; simp at h
  | some q =>
    rw [hm] at h
    simp at h
    rw [← h]

/-- Two recursive callbacks that agree on every position one ply deeper
give the same quiescence move loop. -/
theorem q_loop_congr (env : Env) (qr1 qr2 : Worker → Int → Int → Int → SRes)
    (ppos : Pos) (depth beta : Int) (ic : Bool)
    (h : ∀ w d a b, w.pos.sply = ppos.sply + 1 → qr1 w d a b = qr2 w d a b) :
    ∀ (l : List (Move × Bool)) (st : QSt),
      q_loop env qr1 ppos depth beta ic l st = q_loop env qr2 ppos depth beta ic l st := by
  intro l
  induction l with
  | nil => intro st; rfl
  | cons mb rest ih =>
    intro st
    obtain ⟨m, badcap⟩ := mb
    by_cases hskip : ic = false ∧ m.capture = true ∧ badcap = true
    · simp only [q_loop, if_pos hskip]
      exact ih st
    · simp only [q_loop, if_neg hskip]
      cases hmv : doMove env ppos m with
      | none => exact ih st
      | some child =>
        have hsub := h { st.w with pos := child } (depth - 1) (-beta) (-st.alpha)
          (doMove_sply env ppos m child hmv)
        simp only [hsub, ih]

/-- Fuel irrelevance for `quiescence`: any fuel of at least
`MAX_PLY + 1 - sply` (and at least 1) computes the same result, i.e.
the recursion never goes deeper than `MAX_PLY - sply` nested calls. -/
theorem quiescence_fuel_agree (env : Env) :
    ∀ n m (w : Worker) (depth alpha beta : Int), 1 ≤ n → 1 ≤ m →
      MAX_PLY + 1 ≤ n + w.pos.sply → MAX_PLY + 1 ≤ m + w.pos.sply →
      quiescence env n w depth alpha beta = quiescence env m w depth alpha beta := by
  intro n
  induction n using Nat.strong_induction_on with
  | _ n IH =>
    intro m w depth alpha beta hn hm hkn hkm
    obtain ⟨n', rfl⟩ : ∃ n', n = n' + 1 := ⟨n - 1, by omega⟩
    obtain ⟨m', rfl⟩ : ∃ m', m = m' + 1 := ⟨m - 1, by omega⟩
    by_cases hdraw : env.isRep w.pos = true ∨ 100 ≤ w.pos.fifty
    · simp [quiescence, hdraw]
    · by_cases hply : MAX_PLY ≤ w.pos.sply
      · simp [quiescence, hdraw, hply]
      · have hq : ∀ (l : List (Move × Bool)) (st : QSt),
            q_loop env (fun w d a b => quiescence env n' w d a b) w.pos depth beta
              (env.inCheck w.pos) l st =
            q_loop env (fun w d a b => quiescence env m' w d a b) w.pos depth beta
              (env.inCheck w.pos) l st := by
          refine q_loop_congr env _ _ w.pos depth beta (env.inCheck w.pos) ?_
          intro w' d a b hsp
          exact IH n' (by omega) m' w' d a b (by omega) (by omega)
            (by omega) (by omega)
        simp only [quiescence, if_neg hdraw, if_neg hply, hq]

/-- An environment in which every position is a repetition and the
static evaluation is 42. -/
def envC8 : Env := { env0 with isRep := fun _ => true, evalScore := fun _ => 42 }

/-- A worker whose position is at search ply `MAX_PLY`. -/
def wC8 : Worker := { w0 with pos := ⟨0, 0, 0, MAX_PLY⟩ }

/-- Counterexample to C8 as stated: at search ply `MAX_PLY` quiescence
does return without recursing, but the repetition/fifty-move draw check
precedes the ply check (search.c:261-271), so at a repetition it
returns 0 and not the static evaluation (42 here). -/
theorem quiescence_max_ply_draw_cx :
    MAX_PLY ≤ wC8.pos.sply ∧
    envC8.evalScore wC8.pos = 42 ∧
    (quiescence envC8 1 wC8 0 (-30000) 30000).score = 0 :=
  ⟨by decide, rfl, rfl⟩

/-- C8 (amended): quiescence terminates with recursion depth at most
`MAX_PLY`: each recursive call is made after a move has incremented the
search ply, so any fuel of at least `MAX_PLY + 1 - sply` — at most
`MAX_PLY + 1` frames, hence at most `MAX_PLY` nested recursive calls —
already computes the definitive result; and when the search ply has
reached `MAX_PLY` quiescence returns without recursing — the static
evaluation, unless the draw check already returned 0 (the draw check
precedes the ply check). -/
theorem quiescence_depth_bound (env : Env) (n m : Nat) (w : Worker)
    (depth alpha beta : Int) :
    (1 ≤ n → 1 ≤ m → MAX_PLY + 1 ≤ n + w.pos.sply → MAX_PLY + 1 ≤ m + w.pos.sply →
      quiescence env n w depth alpha beta = quiescence env m w depth alpha beta) ∧
    (MAX_PLY ≤ w.pos.sply → ¬(env.isRep w.pos = true ∨ 100 ≤ w.pos.fifty) →
      (quiescence env (n + 1) w depth alpha beta).score = env.evalScore w.pos ∧
      (quiescence env (n + 1) w depth alpha beta).tr = [Ev.evalE]) ∧
    (MAX_PLY ≤ w.pos.sply → (env.isRep w.pos = true ∨ 100 ≤ w.pos.fifty) →
      (quiescence env (n + 1) w depth alpha beta).score = 0 ∧
      (quiescence env (n + 1) w depth alpha beta).tr = []) := by
  refine ⟨?_, ?_, ?_⟩
  · intro hn hm hkn hkm
    exact quiescence_fuel_agree env n m w depth alpha beta hn hm hkn hkm
  · intro hply hdraw
    constructor <;> simp [quiescence, hdraw, hply]
  · intro hply hdraw
    constructor <;> simp [quiescence, hdraw]

/-- Witness for `quiescence_depth_bound`: at ply `MAX_PLY` in a
non-draw environment the result is the static evaluation with no
recursion, and one unit of fuel is already enough there. -/
theorem quiescence_depth_bound_w :
    (MAX_PLY ≤ (⟨pos0.board, pos0.stm, pos0.fifty, MAX_PLY⟩ : Pos).sply) ∧
    (quiescence env0 1 { w0 with pos := ⟨0, 0, 0, MAX_PLY⟩ } 0 (-30000) 30000).score =
      env0.evalScore ({ w0 with pos := ⟨0, 0, 0, MAX_PLY⟩ } : Worker).pos ∧
    quiescence env0 1 { w0 with pos := ⟨0, 0, 0, MAX_PLY⟩ } 0 (-30000) 30000 =
      quiescence env0 178 { w0 with pos := ⟨0, 0, 0, MAX_PLY⟩ } 0 (-30000) 30000 := by
  refine ⟨by decide, ?_, ?_⟩
  · exact ((quiescence_depth_bound env0 0 0 { w0 with pos := ⟨0, 0, 0, MAX_PLY⟩ }
      0 (-30000) 30000).2.1 (by decide) (by decide)).1
  · exact (quiescence_depth_bound env0 1 178 { w0 with pos := ⟨0, 0, 0, MAX_PLY⟩ }
      0 (-30000) 30000).1 (by decide) (by decide) (by decide) (by decide)

/-! ## Claim C9: null moves are never made twice in a row.

A trace is a tree whose edges are the (null) moves made; "no two
consecutive null moves along any explored line" says that on every
root-to-leaf path of this tree a null edge is never followed
immediately by another null edge — equivalently, the subtree behind
every null edge has no null edge at its top level. -/

/-- Is the event a null move? -/
def evIsNull : Ev → Bool
  | .nullE _ => true
  | _ => false

/-- No null move at the top level of a trace. -/
def noTopNull (l : List Ev) : Bool := l.all (fun e => !evIsNull e)

mutual

/-- The no-consecutive-null-moves property of one event: behind a real
move the subtree satisfies the property; behind a null move it does
too, and additionally makes no null move at its own top level. -/
def evOk : Ev → Bool
  | .moveE _ sub => listOk sub
  | .nullE sub => listOk sub && noTopNull sub
  | _ => true

/-- The no-consecutive-null-moves property of a trace. -/
def listOk : List Ev → Bool
  | [] => true
  | e :: r => evOk e && listOk r

end

/-- `listOk` distributes over concatenation. -/
theorem listOk_append (l1 l2 : List Ev) :
    listOk (l1 ++ l2) = (listOk l1 && listOk l2) := by
  induction l1 with
  | nil => simp [listOk]
  | cons e r ih => simp [listOk, ih, Bool.and_assoc]

/-- `noTopNull` distributes over concatenation. -/
theorem noTopNull_append (l1 l2 : List Ev) :
    noTopNull (l1 ++ l2) = (noTopNull l1 && noTopNull l2) := by
  simp [noTopNull, List.all_append]

/-- The quiescence move loop preserves the property: it only appends
real-move events whose subtrees come from the callback. -/
theorem q_loop_ok (env : Env) (qr : Worker → Int → Int → Int → SRes)
    (ppos : Pos) (depth beta : Int) (ic : Bool)
    (hqr : ∀ w d a b, listOk (qr w d a b).tr = true) :
    ∀ (l : List (Move × Bool)) (st : QSt), listOk st.tr = true →
      listOk (q_loop env qr ppos depth beta ic l st).tr = true ∧
      (noTopNull st.tr = true → noTopNull (q_loop env qr ppos depth beta ic l st).tr = true) := by
  intro l
  induction l with
  | nil => intro st h; exact ⟨h, fun h2 => h2⟩
  | cons mb rest ih =>
    intro st h
    obtain ⟨m, badcap⟩ := mb
    by_cases hskip : ic = false ∧ m.capture = true ∧ badcap = true
    · simp only [q_loop, if_pos hskip]
      exact ih st h
    · simp only [q_loop, if_neg hskip]
      cases hmv : doMove env ppos m with
      | none => exact ih st h
      | some child =>
        simp only
        have hsub := hqr { st.w with pos := child } (depth - 1) (-beta) (-st.alpha)
        have htr2 : listOk (st.tr ++
            [Ev.moveE m (qr { st.w with pos := child } (depth - 1) (-beta) (-st.alpha)).tr]) = true := by
          simp [listOk_append, listOk, evOk, h, hsub]
        have htr2n : noTopNull st.tr = true → noTopNull (st.tr ++
            [Ev.moveE m (qr { st.w with pos := child } (depth - 1) (-beta) (-st.alpha)).tr]) = true := by
          intro h2
          rw [noTopNull_append, h2]
          simp [noTopNull, evIsNull]
        split
        · split
          · split
            · exact ⟨htr2, htr2n⟩
            · exact ⟨(ih _ htr2).1, fun h2 => (ih _ htr2).2 (htr2n h2)⟩
          · exact ⟨(ih _ htr2).1, fun h2 => (ih _ htr2).2 (htr2n h2)⟩
        · exact ⟨(ih _ htr2).1, fun h2 => (ih _ htr2).2 (htr2n h2)⟩

/-- Quiescence traces satisfy the property and never make a null move
at their own top level: quiescence never makes null moves at all. -/
theorem quiescence_ok (env : Env) :
    ∀ (fuel : Nat) (w : Worker) (depth alpha beta : Int),
      listOk (quiescence env fuel w depth alpha beta).tr = true ∧
      noTopNull (quiescence env fuel w depth alpha beta).tr = true := by
  intro fuel
  induction fuel with
  | zero => intro w depth alpha beta; exact ⟨rfl, rfl⟩
  | succ n ih =>
    intro w depth alpha beta
    by_cases hdraw : env.isRep w.pos = true ∨ 100 ≤ w.pos.fifty
    · constructor <;> simp [quiescence, hdraw, listOk, noTopNull]
    · by_cases hply : MAX_PLY ≤ w.pos.sply
      · constructor <;>
          simp [quiescence, hdraw, hply, listOk, noTopNull, evOk, evIsNull]
      · by_cases hsp : env.inCheck w.pos = false ∧ beta ≤ env.evalScore w.pos
        · constructor <;>
            simp [quiescence, hdraw, hply, hsp, listOk, noTopNull, evOk, evIsNull]
        · by_cases htl : (env.ttLookup w.pos 0
              (if env.inCheck w.pos = false ∧ alpha < env.evalScore w.pos then
                env.evalScore w.pos else alpha) beta).1 = true
          · constructor <;>
              simp [quiescence, hdraw, hply, hsp, htl, listOk, noTopNull, evOk, evIsNull]
          · have hloop := q_loop_ok env (fun w d a b => quiescence env n w d a b)
              w.pos depth beta (env.inCheck w.pos) (fun w d a b => (ih w d a b).1)
            simp only [quiescence, if_neg hdraw, if_neg hply, if_neg hsp, if_neg htl]
            constructor
            · exact (hloop _ _ (by rfl)).1
            · exact (hloop _ _ (by rfl)).2 (by rfl)

/-- Appending a real-move event with a good subtree keeps the property. -/
theorem listOk_snoc_move (tr sub : List Ev) (m : Move) (h : listOk tr = true)
    (hsub : listOk sub = true) : listOk (tr ++ [Ev.moveE m sub]) = true := by
  simp [listOk_append, h, listOk, evOk, hsub]

/-- Appending a real-move event keeps the top level free of null moves. -/
theorem noTopNull_snoc_move (tr sub : List Ev) (m : Move)
    (h : noTopNull tr = true) : noTopNull (tr ++ [Ev.moveE m sub]) = true := by
  rw [noTopNull_append, h]
  simp [noTopNull, evIsNull]

/-- Appending a TT-store event keeps the property. -/
theorem listOk_snoc_store (tr : List Ev) (m : Move) (d s : Int) (f : TTFlag)
    (h : listOk tr = true) : listOk (tr ++ [Ev.ttStoreE m d s f]) = true := by
  simp [listOk_append, h, listOk, evOk]

/-- Appending a TT-store event keeps the top level free of null moves. -/
theorem noTopNull_snoc_store (tr : List Ev) (m : Move) (d s : Int) (f : TTFlag)
    (h : noTopNull tr = true) : noTopNull (tr ++ [Ev.ttStoreE m d s f]) = true := by
  rw [noTopNull_append, h]
  simp [noTopNull, evIsNull]

/-- Appending a null-move event whose subtree is good and itself makes
no top-level null move keeps the property. -/
theorem listOk_snoc_null (tr sub : List Ev) (h : listOk tr = true)
    (hsub : listOk sub = true) (hsubn : noTopNull sub = true) :
    listOk (tr ++ [Ev.nullE sub]) = true := by
  simp [listOk_append, h, listOk, evOk, hsub, hsubn]

/-- The PVS cascade only concatenates traces of recursive searches. -/
theorem pvs_cascade_ok (sr : Worker → Int → Int → Int → Bool → SRes)
    (Hok : ∀ w d a b t, listOk (sr w d a b t).tr = true) :
    ∀ (w : Worker) (ppos : Pos) (newDepth reduction alpha beta best : Int)
      (pvNode : Bool),
      listOk (pvs_cascade sr w ppos newDepth reduction alpha beta best pvNode).2.2 = true := by
  intro w ppos newDepth reduction alpha beta best pvNode
  unfold pvs_cascade
  dsimp only
  split
  · exact Hok _ _ _ _ _
  · split <;> split <;> simp [listOk_append, Hok]

/-- The main move loop preserves the property and the null-free top
level: it appends only real-move events. -/
theorem mv_loop_ok (env : Env) (sr : Worker → Int → Int → Int → Bool → SRes)
    (ppos : Pos) (depth beta : Int) (pvNode ic fut : Bool) (ttm : Move)
    (Hok : ∀ w d a b t, listOk (sr w d a b t).tr = true) :
    ∀ (l : List Move) (st : MSt), listOk st.tr = true →
      listOk (mv_loop env sr ppos depth beta pvNode ic fut ttm l st).tr = true ∧
      (noTopNull st.tr = true →
        noTopNull (mv_loop env sr ppos depth beta pvNode ic fut ttm l st).tr = true) := by
  intro l
  induction l with
  | nil => intro st h; exact ⟨h, fun h2 => h2⟩
  | cons m rest ih =>
    intro st h
    simp only [mv_loop]
    cases hmv : doMove env ppos m with
    | none => exact ih st h
    | some child =>
      simp only
      repeat' split
      all_goals
        first
          | exact ih _ h
          | exact ⟨listOk_snoc_move _ _ _ h (pvs_cascade_ok sr Hok _ _ _ _ _ _ _ _),
              fun h2 => noTopNull_snoc_move _ _ _ h2⟩
          | exact ⟨(ih _ (listOk_snoc_move _ _ _ h
                (pvs_cascade_ok sr Hok _ _ _ _ _ _ _ _))).1,
              fun h2 => (ih _ (listOk_snoc_move _ _ _ h
                (pvs_cascade_ok sr Hok _ _ _ _ _ _ _ _))).2
                (noTopNull_snoc_move _ _ _ h2)⟩

/-- The move-loop stage of `search` preserves the property and the
null-free top level. -/
theorem search_moves_ok (env : Env) (sr : Worker → Int → Int → Int → Bool → SRes)
    (Hok : ∀ w d a b t, listOk (sr w d a b t).tr = true)
    (w : Worker) (depth alpha beta : Int) (pvNode ic : Bool) (ttm : Move)
    (ss : Int) (tr : List Ev) (h : listOk tr = true) :
    listOk (search_moves env sr w depth alpha beta pvNode ic ttm ss tr).tr = true ∧
    (noTopNull tr = true →
      noTopNull (search_moves env sr w depth alpha beta pvNode ic ttm ss tr).tr = true) := by
  unfold search_moves
  dsimp only
  have hml := mv_loop_ok env sr w.pos depth beta pvNode ic
    (decide (depth ≤ 3 ∧ ss + futility_margin depth ≤ alpha)) ttm Hok
    (env.moves w.pos ttm)
    ⟨-INFINITE_SCORE, NOMOVE, alpha, TTFlag.alpha, 0, false, w, tr⟩ h
  exact ⟨listOk_snoc_store _ _ _ _ _ hml.1,
    fun h2 => noTopNull_snoc_store _ _ _ _ _ (hml.2 h2)⟩

/-- The ProbCut capture loop preserves the property and the null-free
top level. -/
theorem pc_loop_ok (env : Env) (sr : Worker → Int → Int → Int → Bool → SRes)
    (ppos : Pos) (depth threshold ss : Int)
    (Hok : ∀ w d a b t, listOk (sr w d a b t).tr = true) :
    ∀ (l : List (Move × Bool)) (w : Worker) (tr : List Ev), listOk tr = true →
      listOk (pc_loop env sr ppos depth threshold ss l w tr).2.2 = true ∧
      (noTopNull tr = true →
        noTopNull (pc_loop env sr ppos depth threshold ss l w tr).2.2 = true) := by
  intro l
  induction l with
  | nil => intro w tr h; exact ⟨h, fun h2 => h2⟩
  | cons mb rest ih =>
    intro w tr h
    obtain ⟨m, b⟩ := mb
    simp only [pc_loop]
    repeat' split
    all_goals
      first
        | exact ih _ _ h
        | exact ⟨listOk_snoc_move _ _ _ h (Hok _ _ _ _ _),
            fun h2 => noTopNull_snoc_move _ _ _ h2⟩
        | exact ⟨(ih _ _ (listOk_snoc_move _ _ _ h (Hok _ _ _ _ _))).1,
            fun h2 => (ih _ _ (listOk_snoc_move _ _ _ h (Hok _ _ _ _ _))).2
              (noTopNull_snoc_move _ _ _ h2)⟩

/-- The ProbCut stage preserves the property and the null-free top
level. -/
theorem search_probcut_ok (env : Env) (sr : Worker → Int → Int → Int → Bool → SRes)
    (Hok : ∀ w d a b t, listOk (sr w d a b t).tr = true)
    (w : Worker) (depth alpha beta : Int) (pvNode ic : Bool) (ttm : Move)
    (ss : Int) (tr : List Ev) (h : listOk tr = true) :
    listOk (search_probcut env sr w depth alpha beta pvNode ic ttm ss tr).tr = true ∧
    (noTopNull tr = true →
      noTopNull (search_probcut env sr w depth alpha beta pvNode ic ttm ss tr).tr = true) := by
  unfold search_probcut
  dsimp only
  split
  · have hpc := pc_loop_ok env sr w.pos depth (beta + 210) ss Hok
      (env.qmoves w.pos ttm) w tr h
    split
    · exact ⟨hpc.1, fun h2 => hpc.2 h2⟩
    · have hsm := search_moves_ok env sr Hok
        (pc_loop env sr w.pos depth (beta + 210) ss (env.qmoves w.pos ttm) w tr).2.1
        depth alpha beta pvNode ic ttm ss
        (pc_loop env sr w.pos depth (beta + 210) ss (env.qmoves w.pos ttm) w tr).2.2 hpc.1
      exact ⟨hsm.1, fun h2 => hsm.2 (hpc.2 h2)⟩
  · exact search_moves_ok env sr Hok w depth alpha beta pvNode ic ttm ss tr h

/-- The null-move stage: the null subtree comes from a recursive search
with `try_null` false, so it has a null-free top level, and the event
appended for it is the only way a null edge enters the trace; when the
node itself has `try_null` false no null edge is appended at all. -/
theorem search_null_ok (env : Env) (sr : Worker → Int → Int → Int → Bool → SRes)
    (Hok : ∀ w d a b t, listOk (sr w d a b t).tr = true)
    (Hfalse : ∀ w d a b, noTopNull (sr w d a b false).tr = true)
    (w : Worker) (depth alpha beta : Int) (tryNull pvNode ic : Bool) (ttm : Move)
    (ss : Int) (tr : List Ev) (h : listOk tr = true) :
    listOk (search_null env sr w depth alpha beta tryNull pvNode ic ttm ss tr).tr = true ∧
    (tryNull = false → noTopNull tr = true →
      noTopNull (search_null env sr w depth alpha beta tryNull pvNode ic ttm ss tr).tr = true) := by
  unfold search_null
  dsimp only
  split
  · next hcond =>
    have htr2 : listOk (tr ++ [Ev.nullE (sr { w with pos := doNull env w.pos }
        (depth - (2 + depth / 6) - 1) (-beta) (-beta + 1) false).tr]) = true :=
      listOk_snoc_null _ _ h (Hok _ _ _ _ _) (Hfalse _ _ _ _)
    split
    · exact ⟨htr2, fun hf _ => absurd hcond.1 (by simp [hf])⟩
    · have hpc := search_probcut_ok env sr Hok
        { (sr { w with pos := doNull env w.pos } (depth - (2 + depth / 6) - 1)
            (-beta) (-beta + 1) false).w with pos := w.pos }
        depth alpha beta pvNode ic ttm ss
        (tr ++ [Ev.nullE (sr { w with pos := doNull env w.pos }
          (depth - (2 + depth / 6) - 1) (-beta) (-beta + 1) false).tr]) htr2
      exact ⟨hpc.1, fun hf _ => absurd hcond.1 (by simp [hf])⟩
  · have hpc := search_probcut_ok env sr Hok w depth alpha beta pvNode ic ttm ss tr h
    exact ⟨hpc.1, fun _ h2 => hpc.2 h2⟩

/-- One `search` node: its trace satisfies the property, and with
`try_null` false it makes no null move at its own top level. -/
theorem search_node_ok (env : Env) (sr : Worker → Int → Int → Int → Bool → SRes)
    (Hok : ∀ w d a b t, listOk (sr w d a b t).tr = true)
    (Hfalse : ∀ w d a b, noTopNull (sr w d a b false).tr = true)
    (w : Worker) (depth alpha beta : Int) (tryNull : Bool) :
    listOk (search_node env sr w depth alpha beta tryNull).tr = true ∧
    (tryNull = false →
      noTopNull (search_node env sr w depth alpha beta tryNull).tr = true) := by
  unfold search_node
  dsimp only
  split
  · exact ⟨(quiescence_ok env _ _ _ _ _).1, fun _ => (quiescence_ok env _ _ _ _ _).2⟩
  · split
    · exact ⟨rfl, fun _ => rfl⟩
    · split
      · exact ⟨rfl, fun _ => rfl⟩
      · split
        · exact ⟨rfl, fun _ => rfl⟩
        · split
          · exact ⟨rfl, fun _ => rfl⟩
          · split
            · split
              · refine ⟨?_, fun _ => ?_⟩
                · rw [listOk_append,
                    (quiescence_ok env (MAX_PLY + 2) (search_entry w) 0 alpha beta).1]
                  rfl
                · rw [noTopNull_append,
                    (quiescence_ok env (MAX_PLY + 2) (search_entry w) 0 alpha beta).2]
                  rfl
              · split
                · refine ⟨?_, fun _ => ?_⟩
                  · rw [listOk_append,
                      (quiescence_ok env (MAX_PLY + 2) (search_entry w) 0
                        (alpha - razoring_margin depth)
                        (alpha - razoring_margin depth + 1)).1]
                    rfl
                  · rw [noTopNull_append,
                      (quiescence_ok env (MAX_PLY + 2) (search_entry w) 0
                        (alpha - razoring_margin depth)
                        (alpha - razoring_margin depth + 1)).2]
                    rfl
                · have htr : listOk ([Ev.ttLookupE, Ev.evalE] ++
                      (quiescence env (MAX_PLY + 2) (search_entry w) 0
                        (alpha - razoring_margin depth)
                        (alpha - razoring_margin depth + 1)).tr) = true := by
                    rw [listOk_append,
                      (quiescence_ok env (MAX_PLY + 2) (search_entry w) 0
                        (alpha - razoring_margin depth)
                        (alpha - razoring_margin depth + 1)).1]
                    rfl
                  have htrn : noTopNull ([Ev.ttLookupE, Ev.evalE] ++
                      (quiescence env (MAX_PLY + 2) (search_entry w) 0
                        (alpha - razoring_margin depth)
                        (alpha - razoring_margin depth + 1)).tr) = true := by
                    rw [noTopNull_append,
                      (quiescence_ok env (MAX_PLY + 2) (search_entry w) 0
                        (alpha - razoring_margin depth)
                        (alpha - razoring_margin depth + 1)).2]
                    rfl
                  have hn := search_null_ok env sr Hok Hfalse
                    (quiescence env (MAX_PLY + 2) (search_entry w) 0
                      (alpha - razoring_margin depth)
                      (alpha - razoring_margin depth + 1)).w
                    depth alpha beta tryNull (decide (1 < beta - alpha))
                    (env.inCheck w.pos) (env.ttLookup w.pos depth alpha beta).2.1
                    (env.evalScore w.pos)
                    ([Ev.ttLookupE, Ev.evalE] ++
                      (quiescence env (MAX_PLY + 2) (search_entry w) 0
                        (alpha - razoring_margin depth)
                        (alpha - razoring_margin depth + 1)).tr) htr
                  exact ⟨hn.1, fun hf => hn.2 hf htrn⟩
            · have hn := search_null_ok env sr Hok Hfalse (search_entry w) depth
                alpha beta tryNull (decide (1 < beta - alpha)) (env.inCheck w.pos)
                (env.ttLookup w.pos depth alpha beta).2.1 (env.evalScore w.pos)
                [Ev.ttLookupE, Ev.evalE] rfl
              exact ⟨hn.1, fun hf => hn.2 hf rfl⟩

/-- C9: along any line explored by `search`, two null moves are never
made consecutively. The trace of every search is `listOk`: the subtree
behind every null edge — searched with `try_null` false — has no null
edge at its own top level, recursively at every depth; and a node
invoked with `try_null` false makes no null move of its own, so making
a null move requires `try_null` true. -/
theorem no_consecutive_null_moves (env : Env) :
    ∀ (fuel : Nat) (w : Worker) (depth alpha beta : Int) (tryNull : Bool),
      listOk (search env fuel w depth alpha beta tryNull).tr = true ∧
      (tryNull = false →
        noTopNull (search env fuel w depth alpha beta tryNull).tr = true) := by
  intro fuel
  induction fuel with
  | zero => intro w depth alpha beta tryNull; exact ⟨rfl, fun _ => rfl⟩
  | succ n ih =>
    intro w depth alpha beta tryNull
    simp only [search]
    exact search_node_ok env (fun w d a b t => search env n w d a b t)
      (fun w d a b t => (ih w d a b t).1)
      (fun w d a b => (ih w d a b false).2 rfl)
      w depth alpha beta tryNull

/-- Witness for `no_consecutive_null_moves` at a concrete search with
`try_null` false. -/
theorem no_consecutive_null_moves_w :
    listOk (search env0 2 w0 5 (-30000) 30000 false).tr = true ∧
    noTopNull (search env0 2 w0 5 (-30000) 30000 false).tr = true :=
  ⟨(no_consecutive_null_moves env0 2 w0 5 (-30000) 30000 false).1,
   (no_consecutive_null_moves env0 2 w0 5 (-30000) 30000 false).2 rfl⟩

end Marvin
